import Mathlib

/-!
Verification of the PRCoords coordinate-conversion library (`prcoords.py`),
which converts between the WGS-84, GCJ-02 and BD-09 coordinate systems.
Python floats are modelled as real numbers; `math.sin`, `math.sqrt`,
`math.atan2`, ... become the corresponding functions on `ℝ`.  The
`warnings.warn` side channel of `wgs_gcj` is modelled by the predicate
`wgs_gcj_warns`, which holds exactly when the Python code reaches the
`warnings.warn` call (a non-fatal diagnostic; no exception is raised and the
function keeps returning a value).
-/

open Real Classical

noncomputable section

namespace PRCoords

/-- Krasovsky 1940 ellipsoid semi-major axis, `GCJ_A = 6378245`. -/
def GCJ_A : ℝ := 6378245

/-- Krasovsky 1940 ellipsoid eccentricity squared, `GCJ_EE`. -/
def GCJ_EE : ℝ := 0.00669342162296594323

/-- Convergence threshold of the iterative refiner, `PRC_EPS = 1e-5`. -/
def PRC_EPS : ℝ := 1e-5

/-- Baidu fixed latitude offset, `BD_DLAT = 0.0060`. -/
def BD_DLAT : ℝ := 0.0060

/-- Baidu fixed longitude offset, `BD_DLON = 0.0065`. -/
def BD_DLON : ℝ := 0.0065

/-- Mean Earth radius in meters, `EARTH_R = 6371000`. -/
def EARTH_R : ℝ := 6371000

/-- Degrees to radians, `math.radians`. -/
def radians (x : ℝ) : ℝ := x * π / 180

/-- The coordinate pair `Coords(lat, lon)` (a named tuple in the source). -/
structure Coords where
  lat : ℝ
  lon : ℝ

/-- Component-wise addition, `Coords.__add__`. -/
instance : Add Coords := ⟨fun a b => ⟨a.lat + b.lat, a.lon + b.lon⟩⟩

/-- Component-wise subtraction, `Coords.__sub__`. -/
instance : Sub Coords := ⟨fun a b => ⟨a.lat - b.lat, a.lon - b.lon⟩⟩

/-- Planar Euclidean norm `math.hypot(lat, lon)`, i.e. `Coords.__abs__`. -/
def Coords.cabs (c : Coords) : ℝ := Real.sqrt (c.lat ^ 2 + c.lon ^ 2)

/-- The local haversine helper `hav` from `Coords.distance`. -/
def hav (θ : ℝ) : ℝ := Real.sin (θ / 2) ^ 2

/-- Haversine great-circle distance, `Coords.distance`. -/
def Coords.distance (self other : Coords) : ℝ :=
  let delta := self - other
  2 * EARTH_R *
    Real.arcsin (Real.sqrt
      (hav (radians delta.lat) +
        Real.cos (radians self.lat) * Real.cos (radians other.lat) *
          hav (radians delta.lon)))

/-- Rough axis-aligned China bounding box, `sanity_in_china_p`. -/
def sanity_in_china_p (coords : Coords) : Prop :=
  0.8293 ≤ coords.lat ∧ coords.lat ≤ 55.8271 ∧
    72.004 ≤ coords.lon ∧ coords.lon ≤ 137.8347

/-- Forward distortion model WGS-84 → GCJ-02, `wgs_gcj`. -/
def wgs_gcj (wgs : Coords) (check_china : Bool) : Coords :=
  if check_china = true ∧ ¬ sanity_in_china_p wgs then wgs
  else
    let x := wgs.lon - 105
    let y := wgs.lat - 35
    let dLat_m : ℝ :=
      -100 + 2 * x + 3 * y + 0.2 * y * y + 0.1 * x * y +
        0.2 * Real.sqrt |x| +
        (2 * Real.sin (x * 6 * π) + 2 * Real.sin (x * 2 * π) +
          2 * Real.sin (y * π) + 4 * Real.sin (y / 3 * π) +
          16 * Real.sin (y / 12 * π) + 32 * Real.sin (y / 30 * π)) * 20 / 3
    let dLon_m : ℝ :=
      300 + x + 2 * y + 0.1 * x * x + 0.1 * x * y +
        0.1 * Real.sqrt |x| +
        (2 * Real.sin (x * 6 * π) + 2 * Real.sin (x * 2 * π) +
          2 * Real.sin (x * π) + 4 * Real.sin (x / 3 * π) +
          15 * Real.sin (x / 12 * π) + 30 * Real.sin (x / 30 * π)) * 20 / 3
    let radLat := radians wgs.lat
    let magic := 1 - GCJ_EE * Real.sin radLat ^ 2
    let lat_deg_arclen := radians ((GCJ_A * (1 - GCJ_EE)) * magic ^ (1.5 : ℝ))
    let lon_deg_arclen := radians (GCJ_A * Real.cos radLat / Real.sqrt magic)
    ⟨wgs.lat + dLat_m / lat_deg_arclen, wgs.lon + dLon_m / lon_deg_arclen⟩

/-- The condition under which `wgs_gcj` reaches its `warnings.warn` call:
the region check is requested and the input is outside the bounding box.
The source emits a warning there (non-fatal) and returns the input as-is. -/
def wgs_gcj_warns (wgs : Coords) (check_china : Bool) : Prop :=
  check_china = true ∧ ¬ sanity_in_china_p wgs

/-- Single-step GCJ-02 → WGS-84 inverse approximation, `gcj_wgs`. -/
def gcj_wgs (gcj : Coords) (check_china : Bool) : Coords :=
  gcj - (wgs_gcj gcj check_china - gcj)

/-- Two-argument arctangent `math.atan2 y x` on the reals (C semantics, signed zeros aside). -/
def atan2 (y x : ℝ) : ℝ :=
  if 0 < x then Real.arctan (y / x)
  else if x < 0 then
    if 0 ≤ y then Real.arctan (y / x) + π else Real.arctan (y / x) - π
  else
    if 0 < y then π / 2 else if y < 0 then -(π / 2) else 0

/-- Baidu polar warp GCJ-02 → BD-09, `gcj_bd` (the `_dummy` flag is unused). -/
def gcj_bd (gcj : Coords) (_dummy : Bool) : Coords :=
  let y := gcj.lat
  let x := gcj.lon
  let r := Real.sqrt (x * x + y * y) + 0.00002 * Real.sin (radians y * 3000)
  let θ := atan2 y x + 0.000003 * Real.cos (radians x * 3000)
  ⟨r * Real.sin θ + BD_DLAT, r * Real.cos θ + BD_DLON⟩

/-- Inverse Baidu polar warp BD-09 → GCJ-02, `bd_gcj` (the `_dummy` flag is unused). -/
def bd_gcj (bd : Coords) (_dummy : Bool) : Coords :=
  let x := bd.lon - BD_DLON
  let y := bd.lat - BD_DLAT
  let r := Real.sqrt (x * x + y * y) - 0.00002 * Real.sin (radians y * 3000)
  let θ := atan2 y x - 0.000003 * Real.cos (radians x * 3000)
  ⟨r * Real.sin θ, r * Real.cos θ⟩

/-- Composed conversion BD-09 → WGS-84, `bd_wgs`
(`bd_gcj` is called with its Python default `_dummy=False`). -/
def bd_wgs (bd : Coords) (check_china : Bool) : Coords :=
  gcj_wgs (bd_gcj bd false) check_china

/-- Composed conversion WGS-84 → BD-09, `wgs_bd`
(`gcj_bd` is called with its Python default `_dummy=False`). -/
def wgs_bd (bd : Coords) (check_china : Bool) : Coords :=
  gcj_bd (wgs_gcj bd check_china) false

/-- The `while` loop of `rev_bored`, with `n` remaining allowed iterations:
`while i < 10 and abs(diff) > PRC_EPS: diff = fwd(wgs, False) - bad; wgs = wgs - diff`. -/
def boredGo (fwd : Coords → Bool → Coords) (bad : Coords) :
    ℕ → Coords → Coords → Coords
  | 0, wgs, _ => wgs
  | n + 1, wgs, diff =>
    if PRC_EPS < Coords.cabs diff then
      boredGo fwd bad n (wgs - (fwd wgs false - bad)) (fwd wgs false - bad)
    else wgs

/-- Number of loop iterations (= in-loop forward evaluations) `boredGo`
performs before returning. -/
def boredSteps (fwd : Coords → Bool → Coords) (bad : Coords) :
    ℕ → Coords → Coords → ℕ
  | 0, _, _ => 0
  | n + 1, wgs, diff =>
    if PRC_EPS < Coords.cabs diff then
      boredSteps fwd bad n (wgs - (fwd wgs false - bad)) (fwd wgs false - bad) + 1
    else 0

/-- Generic refiner factory `_bored`.  The returned `rev_bored` starts
from `rev(bad)`, seeds `diff` with the canary `(99, 99)`, runs the bounded
loop, and never reads its own `check_china` argument. -/
def bored (fwd : Coords → Bool → Coords) (rev : Coords → Coords) :
    Coords → Bool → Coords :=
  fun bad _check => boredGo fwd bad 10 (rev bad) ⟨99, 99⟩

/-- Precise inverse `gcj_wgs_bored = _bored(wgs_gcj, gcj_wgs)`; the initial
`rev(bad)` call uses the Python default `check_china=True` of `gcj_wgs`. -/
def gcj_wgs_bored : Coords → Bool → Coords :=
  bored wgs_gcj (fun c => gcj_wgs c true)

/-- Precise inverse `bd_gcj_bored = _bored(gcj_bd, bd_gcj)`; the initial
`rev(bad)` call uses the Python default `_dummy=False` of `bd_gcj`. -/
def bd_gcj_bored : Coords → Bool → Coords :=
  bored gcj_bd (fun c => bd_gcj c false)

/-- Precise inverse `bd_wgs_bored = _bored(wgs_bd, bd_wgs)`; the initial
`rev(bad)` call uses the Python default `check_china=True` of `bd_wgs`. -/
def bd_wgs_bored : Coords → Bool → Coords :=
  bored wgs_bd (fun c => bd_wgs c true)

/-- The forward distortion model exactly as the specification text writes it
(spec §4.1), kept separate from `wgs_gcj` so the two can be compared. -/
def wgsGcjSpecFormula (w : Coords) : Coords :=
  let x := w.lon - 105
  let y := w.lat - 35
  let dLat : ℝ :=
    -100 + 2 * x + 3 * y + 0.2 * y ^ 2 + 0.1 * (x * y) +
      0.2 * Real.sqrt |x| +
      20 / 3 * (2 * Real.sin (6 * π * x) + 2 * Real.sin (2 * π * x) +
        2 * Real.sin (π * y) + 4 * Real.sin (π * y / 3) +
        16 * Real.sin (π * y / 12) + 32 * Real.sin (π * y / 30))
  let dLon : ℝ :=
    300 + x + 2 * y + 0.1 * x ^ 2 + 0.1 * (x * y) +
      0.1 * Real.sqrt |x| +
      20 / 3 * (2 * Real.sin (6 * π * x) + 2 * Real.sin (2 * π * x) +
        2 * Real.sin (π * x) + 4 * Real.sin (π * x / 3) +
        15 * Real.sin (π * x / 12) + 30 * Real.sin (π * x / 30))
  let magic := 1 - GCJ_EE * Real.sin (radians w.lat) ^ 2
  let latArcLen := radians (GCJ_A * (1 - GCJ_EE) * magic ^ (1.5 : ℝ))
  let lonArcLen := radians (GCJ_A * Real.cos (radians w.lat) / Real.sqrt magic)
  ⟨w.lat + dLat / latArcLen, w.lon + dLon / lonArcLen⟩

/-- The Baidu forward warp exactly as the specification text writes it
(spec §4.3 / claim C4), kept separate from `gcj_bd` for comparison. -/
def gcjBdSpecFormula (p : Coords) : Coords :=
  let r := Real.sqrt (p.lon ^ 2 + p.lat ^ 2) +
    0.00002 * Real.sin (3000 * radians p.lat)
  let θ := atan2 p.lat p.lon + 0.000003 * Real.cos (3000 * radians p.lon)
  ⟨r * Real.sin θ + 0.0060, r * Real.cos θ + 0.0065⟩

/-- The Baidu inverse warp exactly as the specification text writes it
(spec §4.3 / claim C4): remove the fixed offset, then the same `r`, `θ`
formulas with the perturbations subtracted, at the offset-removed point. -/
def bdGcjSpecFormula (p : Coords) : Coords :=
  let x := p.lon - 0.0065
  let y := p.lat - 0.0060
  let r := Real.sqrt (x ^ 2 + y ^ 2) - 0.00002 * Real.sin (3000 * radians y)
  let θ := atan2 y x - 0.000003 * Real.cos (3000 * radians x)
  ⟨r * Real.sin θ, r * Real.cos θ⟩

end PRCoords

namespace PRCoords

theorem Coords.add_def (a b : Coords) :
    a + b = ⟨a.lat + b.lat, a.lon + b.lon⟩ := rfl

theorem Coords.sub_def (a b : Coords) :
    a - b = ⟨a.lat - b.lat, a.lon - b.lon⟩ := rfl

theorem hav_radians_sub_comm (u v : ℝ) :
    hav (radians (u - v)) = hav (radians (v - u)) := by
  unfold hav radians
  rw [show (v - u) * π / 180 / 2 = -((u - v) * π / 180 / 2) from by ring,
    Real.sin_neg, neg_sq]

theorem boredSteps_le (fwd : Coords → Bool → Coords) (bad : Coords) :
    ∀ (n : ℕ) (wgs diff : Coords), boredSteps fwd bad n wgs diff ≤ n := by
  intro n
  induction n with
  | zero => intro wgs diff; simp [boredSteps]
  | succ n ih =>
    intro wgs diff
    rw [boredSteps]
    split
    · exact Nat.succ_le_succ (ih _ _)
    · exact Nat.zero_le _

theorem canary_gt_eps : PRC_EPS < Coords.cabs ⟨99, 99⟩ := by
  unfold PRC_EPS Coords.cabs
  rw [Real.lt_sqrt (by norm_num)]
  norm_num

theorem boredSteps_ten_pos (fwd : Coords → Bool → Coords) (bad wgs : Coords) :
    1 ≤ boredSteps fwd bad 10 wgs ⟨99, 99⟩ := by
  rw [show (10 : ℕ) = 9 + 1 from rfl, boredSteps, if_pos canary_gt_eps]
  exact Nat.succ_le_succ (Nat.zero_le _)

/-- C1: wherever the region check is off or the input is inside the box,
`wgs_gcj` computes exactly the distortion/arc-length formula of the spec. -/
theorem claim_C1_forward_model_formula (w : Coords) (chk : Bool)
    (h : chk = false ∨ sanity_in_china_p w) :
    wgs_gcj w chk = wgsGcjSpecFormula w := by
  have hcond : ¬ (chk = true ∧ ¬ sanity_in_china_p w) := by
    rcases h with h | h
    · rintro ⟨h1, _⟩; rw [h] at h1; exact Bool.false_ne_true h1
    · rintro ⟨_, h2⟩; exact h2 h
  have s1 : ∀ t : ℝ, Real.sin (t * 6 * π) = Real.sin (6 * π * t) := fun t => by
    rw [show t * 6 * π = 6 * π * t from by ring]
  have s2 : ∀ t : ℝ, Real.sin (t * 2 * π) = Real.sin (2 * π * t) := fun t => by
    rw [show t * 2 * π = 2 * π * t from by ring]
  have s4 : ∀ t : ℝ, Real.sin (t / 3 * π) = Real.sin (π * t / 3) := fun t => by
    rw [show t / 3 * π = π * t / 3 from by ring]
  have s5 : ∀ t : ℝ, Real.sin (t / 12 * π) = Real.sin (π * t / 12) := fun t => by
    rw [show t / 12 * π = π * t / 12 from by ring]
  have s6 : ∀ t : ℝ, Real.sin (t / 30 * π) = Real.sin (π * t / 30) := fun t => by
    rw [show t / 30 * π = π * t / 30 from by ring]
  have s3 : ∀ t : ℝ, Real.sin (t * π) = Real.sin (π * t) := fun t => by
    rw [mul_comm]
  unfold wgs_gcj wgsGcjSpecFormula
  rw [if_neg hcond]
  simp only [s1, s2]
  simp only [s4, s5, s6]
  simp only [s3]
  rw [Coords.mk.injEq]
  constructor <;> ring

/-- Witness for C1 with the region check off, at Tiananmen
`(39.90923, 116.39747)`. -/
theorem claim_C1_witness :
    ((false : Bool) = false ∨ sanity_in_china_p ⟨39.90923, 116.39747⟩) ∧
      wgs_gcj ⟨39.90923, 116.39747⟩ false =
        wgsGcjSpecFormula ⟨39.90923, 116.39747⟩ :=
  ⟨Or.inl rfl, claim_C1_forward_model_formula _ false (Or.inl rfl)⟩

/-- C4: the Baidu forward warp and its inverse compute exactly the `r`, `θ`
formulas of the spec, the inverse at the offset-removed point with the
perturbations subtracted. -/
theorem claim_C4_baidu_warp_formulas :
    ∀ (p : Coords) (d : Bool),
      gcj_bd p d = gcjBdSpecFormula p ∧ bd_gcj p d = bdGcjSpecFormula p := by
  intro p d
  have hsq : ∀ u v : ℝ, u * u + v * v = u ^ 2 + v ^ 2 := fun u v => by ring
  have hmul : ∀ t : ℝ, radians t * 3000 = 3000 * radians t := fun t =>
    mul_comm _ _
  constructor
  · unfold gcj_bd gcjBdSpecFormula BD_DLAT BD_DLON
    simp only [hsq, hmul]
  · unfold bd_gcj bdGcjSpecFormula BD_DLAT BD_DLON
    simp only [hsq, hmul]

/-- C2: each precise inverse starts from the single-step estimate and the
sentinel diff `(99, 99)`, runs the bounded update loop
`diff ← F(estimate, false) − target; estimate ← estimate − diff` while
`|diff| > PRC_EPS`, performing at least 1 and at most 10 loop iterations
(= in-loop forward evaluations), always terminating with the final
estimate. -/
theorem claim_C2_refiner_bounded_iteration :
    ∀ (bad : Coords) (chk : Bool),
      (gcj_wgs_bored bad chk =
          boredGo wgs_gcj bad 10 (gcj_wgs bad true) ⟨99, 99⟩ ∧
        1 ≤ boredSteps wgs_gcj bad 10 (gcj_wgs bad true) ⟨99, 99⟩ ∧
        boredSteps wgs_gcj bad 10 (gcj_wgs bad true) ⟨99, 99⟩ ≤ 10) ∧
      (bd_gcj_bored bad chk =
          boredGo gcj_bd bad 10 (bd_gcj bad false) ⟨99, 99⟩ ∧
        1 ≤ boredSteps gcj_bd bad 10 (bd_gcj bad false) ⟨99, 99⟩ ∧
        boredSteps gcj_bd bad 10 (bd_gcj bad false) ⟨99, 99⟩ ≤ 10) ∧
      (bd_wgs_bored bad chk =
          boredGo wgs_bd bad 10 (bd_wgs bad true) ⟨99, 99⟩ ∧
        1 ≤ boredSteps wgs_bd bad 10 (bd_wgs bad true) ⟨99, 99⟩ ∧
        boredSteps wgs_bd bad 10 (bd_wgs bad true) ⟨99, 99⟩ ≤ 10) := by
  intro bad chk
  exact ⟨⟨rfl, boredSteps_ten_pos _ _ _, boredSteps_le _ _ _ _ _⟩,
    ⟨rfl, boredSteps_ten_pos _ _ _, boredSteps_le _ _ _ _ _⟩,
    ⟨rfl, boredSteps_ten_pos _ _ _, boredSteps_le _ _ _ _ _⟩⟩

/-- C3: outside the bounding box, `wgs_gcj` with the region check on returns
the input unchanged and reaches the non-fatal `warnings.warn` diagnostic. -/
theorem claim_C3_out_of_china_passthrough (c : Coords)
    (h : ¬ sanity_in_china_p c) :
    wgs_gcj c true = c ∧ wgs_gcj_warns c true := by
  refine ⟨?_, rfl, h⟩
  unfold wgs_gcj
  rw [if_pos ⟨rfl, h⟩]

/-- Witness for C3 at London `(51.5074, -0.1278)`. -/
theorem claim_C3_witness :
    ¬ sanity_in_china_p ⟨51.5074, -0.1278⟩ ∧
      wgs_gcj ⟨51.5074, -0.1278⟩ true = ⟨51.5074, -0.1278⟩ ∧
      wgs_gcj_warns ⟨51.5074, -0.1278⟩ true := by
  have h : ¬ sanity_in_china_p (⟨51.5074, -0.1278⟩ : Coords) := by
    norm_num [sanity_in_china_p]
  exact ⟨h, claim_C3_out_of_china_passthrough _ h⟩

/-- C5: the single-step inverse is exactly one forward evaluation of the
GCJ point treated as WGS, with the estimated distortion subtracted. -/
theorem claim_C5_single_step_inverse :
    ∀ p : Coords, gcj_wgs p false = p - (wgs_gcj p false - p) :=
  fun _ => rfl

/-- C8: the inside-China predicate is the inclusive axis-aligned box
`lat ∈ [0.8293, 55.8271]`, `lon ∈ [72.004, 137.8347]`, with the four
boundary examples evaluating as the spec says. -/
theorem claim_C8_china_box :
    (∀ c : Coords, sanity_in_china_p c ↔
      (0.8293 ≤ c.lat ∧ c.lat ≤ 55.8271 ∧
        72.004 ≤ c.lon ∧ c.lon ≤ 137.8347)) ∧
      sanity_in_china_p ⟨0.8293, 72.004⟩ ∧
      ¬ sanity_in_china_p ⟨0.8, 72.004⟩ ∧
      sanity_in_china_p ⟨55.8271, 137.8347⟩ ∧
      ¬ sanity_in_china_p ⟨55.83, 137.8347⟩ := by
  refine ⟨fun c => Iff.rfl, ?_, ?_, ?_, ?_⟩ <;> norm_num [sanity_in_china_p]

/-- C9: `Coords` addition/subtraction is component-wise, addition is
commutative and associative, the planar magnitude is non-negative, and the
haversine distance is symmetric. -/
theorem claim_C9_coords_algebra :
    (∀ a b : Coords, a + b = ⟨a.lat + b.lat, a.lon + b.lon⟩ ∧
        a - b = ⟨a.lat - b.lat, a.lon - b.lon⟩) ∧
      (∀ a b : Coords, a + b = b + a) ∧
      (∀ a b c : Coords, a + b + c = a + (b + c)) ∧
      (∀ c : Coords, 0 ≤ c.cabs) ∧
      (∀ a b : Coords, a.distance b = b.distance a) := by
  refine ⟨fun a b => ⟨rfl, rfl⟩, ?_, ?_, ?_, ?_⟩
  · intro a b
    simp only [Coords.add_def, Coords.mk.injEq]
    constructor <;> ring
  · intro a b c
    simp only [Coords.add_def, Coords.mk.injEq]
    constructor <;> ring
  · intro c
    exact Real.sqrt_nonneg _
  · intro a b
    simp only [Coords.distance, Coords.sub_def]
    rw [hav_radians_sub_comm a.lat b.lat, hav_radians_sub_comm a.lon b.lon,
      mul_comm (Real.cos (radians a.lat)) (Real.cos (radians b.lat))]

theorem radians_pos (z : ℝ) (hz : 0 < z) : 0 < radians z := by
  unfold radians
  exact div_pos (mul_pos hz Real.pi_pos) (by norm_num)

theorem lon_arclen_pos_at_65 :
    0 < radians (GCJ_A * Real.cos (radians 65) /
      Real.sqrt (1 - GCJ_EE * Real.sin (radians 65) ^ 2)) := by
  have hm : (0 : ℝ) < 1 - GCJ_EE * Real.sin (radians 65) ^ 2 := by
    have h1 : Real.sin (radians 65) ^ 2 ≤ 1 := Real.sin_sq_le_one _
    unfold GCJ_EE
    nlinarith
  have hcos : 0 < Real.cos (radians 65) := by
    apply Real.cos_pos_of_mem_Ioo
    rw [Set.mem_Ioo]
    unfold radians
    have hπ := Real.pi_pos
    constructor
    · nlinarith
    · nlinarith
  have hs : 0 < Real.sqrt (1 - GCJ_EE * Real.sin (radians 65) ^ 2) :=
    Real.sqrt_pos.mpr hm
  have hnum : 0 < GCJ_A * Real.cos (radians 65) := by
    unfold GCJ_A
    nlinarith
  exact radians_pos _ (div_pos hnum hs)

/-- C6 as stated is false: `gcj_wgs` forwards its `check_china` flag to
`wgs_gcj`, so outside the box the two flag values give different results.
At `(65, 105)` (north of the box) the true-flag result is the input while
the false-flag result shifts the longitude. -/
theorem claim_C6_counterexample :
    gcj_wgs ⟨65, 105⟩ true ≠ gcj_wgs ⟨65, 105⟩ false := by
  have hnot : ¬ sanity_in_china_p (⟨65, 105⟩ : Coords) := by
    norm_num [sanity_in_china_p]
  have hT : gcj_wgs ⟨65, 105⟩ true = ⟨65, 105⟩ := by
    have hw : wgs_gcj ⟨65, 105⟩ true = ⟨65, 105⟩ := by
      unfold wgs_gcj
      rw [if_pos ⟨rfl, hnot⟩]
    unfold gcj_wgs
    rw [hw]
    simp only [Coords.sub_def]
    norm_num
  have hwlon : (wgs_gcj ⟨65, 105⟩ false).lon =
      105 + 360 / radians (GCJ_A * Real.cos (radians 65) /
        Real.sqrt (1 - GCJ_EE * Real.sin (radians 65) ^ 2)) := by
    unfold wgs_gcj
    rw [if_neg (by rintro ⟨h1, _⟩; exact Bool.false_ne_true h1)]
    dsimp only
    norm_num [Real.sin_zero, Real.sqrt_zero, abs_zero]
  have hglon : (gcj_wgs ⟨65, 105⟩ false).lon =
      105 - ((wgs_gcj ⟨65, 105⟩ false).lon - 105) := rfl
  intro heq
  rw [hT] at heq
  have hl := congrArg Coords.lon heq
  rw [hglon, hwlon] at hl
  have hpos := lon_arclen_pos_at_65
  have hq : 0 < (360 : ℝ) / radians (GCJ_A * Real.cos (radians 65) /
      Real.sqrt (1 - GCJ_EE * Real.sin (radians 65) ^ 2)) :=
    div_pos (by norm_num) hpos
  have hl' : (105 : ℝ) = 105 - (105 + 360 / radians (GCJ_A *
      Real.cos (radians 65) /
      Real.sqrt (1 - GCJ_EE * Real.sin (radians 65) ^ 2)) - 105) := hl
  linarith

/-- C6 amended: the three precise inverses never read their `check_china`
flag, so they are flag-independent for every input; `gcj_wgs`, however,
forwards the flag to `wgs_gcj`, so its two flag values agree (only)
whenever the input passes the region check. -/
theorem claim_C6_amended_inverse_region_check :
    (∀ p : Coords, sanity_in_china_p p → gcj_wgs p true = gcj_wgs p false) ∧
      (∀ (p : Coords) (b₁ b₂ : Bool),
        gcj_wgs_bored p b₁ = gcj_wgs_bored p b₂ ∧
          bd_gcj_bored p b₁ = bd_gcj_bored p b₂ ∧
          bd_wgs_bored p b₁ = bd_wgs_bored p b₂) := by
  constructor
  · intro p h
    have hw : wgs_gcj p true = wgs_gcj p false := by
      unfold wgs_gcj
      rw [if_neg (by rintro ⟨_, h2⟩; exact h2 h),
        if_neg (by rintro ⟨h1, _⟩; exact Bool.false_ne_true h1)]
    unfold gcj_wgs
    rw [hw]
  · exact fun _ _ _ => ⟨rfl, rfl, rfl⟩

/-- Witness for the amended C6 at Tiananmen (inside the box). -/
theorem claim_C6_witness :
    sanity_in_china_p ⟨39.90923, 116.39747⟩ ∧
      gcj_wgs ⟨39.90923, 116.39747⟩ true =
        gcj_wgs ⟨39.90923, 116.39747⟩ false := by
  have h : sanity_in_china_p (⟨39.90923, 116.39747⟩ : Coords) := by
    norm_num [sanity_in_china_p]
  exact ⟨h, claim_C6_amended_inverse_region_check.1 _ h⟩

/-- C7 as stated is false: outside the box with the check on, `wgs_bd` does
not return its input — the Baidu warp still runs on the passed-through
point.  At `(0, -105)` the latitude moves from `0` to
`0.0060 - 105·sin(0.000003) > 0`. -/
theorem claim_C7_counterexample :
    wgs_bd ⟨0, -105⟩ true ≠ ⟨0, -105⟩ := by
  have hnot : ¬ sanity_in_china_p (⟨0, -105⟩ : Coords) := by
    norm_num [sanity_in_china_p]
  have hpass : wgs_gcj ⟨0, -105⟩ true = ⟨0, -105⟩ := by
    unfold wgs_gcj
    rw [if_pos ⟨rfl, hnot⟩]
  have hr : Real.sqrt ((-105 : ℝ) * -105 + 0 * 0) = 105 := by
    rw [show ((-105 : ℝ) * -105 + 0 * 0) = 105 ^ 2 from by norm_num,
      Real.sqrt_sq (by norm_num)]
  have hs0 : Real.sin (radians 0 * 3000) = 0 := by
    rw [show radians (0 : ℝ) * 3000 = 0 from by unfold radians; ring,
      Real.sin_zero]
  have hat : atan2 0 (-105) = π := by
    unfold atan2
    rw [if_neg (by norm_num), if_pos (by norm_num), if_pos (by norm_num),
      zero_div, Real.arctan_zero, zero_add]
  have hc : Real.cos (radians (-105) * 3000) = 1 := by
    rw [show radians (-105 : ℝ) * 3000 = (-875 : ℤ) * (2 * π) from by
        unfold radians; push_cast; ring,
      Real.cos_int_mul_two_pi]
  have hlat : (wgs_bd ⟨0, -105⟩ true).lat =
      0.0060 - 105 * Real.sin 0.000003 := by
    unfold wgs_bd
    rw [hpass]
    unfold gcj_bd BD_DLAT
    dsimp only
    rw [hr, hs0, hat, hc,
      show π + 0.000003 * 1 = 0.000003 + π from by ring, Real.sin_add_pi]
    ring
  intro heq
  have hl := congrArg Coords.lat heq
  rw [hlat] at hl
  have hlt : Real.sin 0.000003 < 0.000003 := Real.sin_lt (by norm_num)
  norm_num at hl
  linarith

/-- C7 amended: with the check on, the passthrough applies only to the
WGS↔GCJ leg of the composed conversions.  Outside the box `wgs_bd` returns
the Baidu warp of the unconverted input (not the input itself), and
`bd_wgs` applies its region check to the intermediate `bd_gcj` value. -/
theorem claim_C7_amended_composed_passthrough :
    (∀ p : Coords, ¬ sanity_in_china_p p → wgs_bd p true = gcj_bd p false) ∧
      (∀ (p : Coords) (b : Bool), bd_wgs p b = gcj_wgs (bd_gcj p false) b) := by
  constructor
  · intro p h
    unfold wgs_bd
    rw [show wgs_gcj p true = p from by unfold wgs_gcj; rw [if_pos ⟨rfl, h⟩]]
  · exact fun _ _ => rfl

/-- Witness for the amended C7 at `(0, -105)` (outside the box). -/
theorem claim_C7_witness :
    ¬ sanity_in_china_p ⟨0, -105⟩ ∧
      wgs_bd ⟨0, -105⟩ true = gcj_bd ⟨0, -105⟩ false ∧
      bd_wgs ⟨0, -105⟩ true = gcj_wgs (bd_gcj ⟨0, -105⟩ false) true := by
  have h : ¬ sanity_in_china_p (⟨0, -105⟩ : Coords) := by
    norm_num [sanity_in_china_p]
  exact ⟨h, claim_C7_amended_composed_passthrough.1 _ h,
    claim_C7_amended_composed_passthrough.2 _ _⟩

/-- C10: the `check_china` argument of the three precise inverses is never
read, so it has no effect on the result. -/
theorem claim_C10_precise_flag_unused :
    ∀ (p : Coords) (b₁ b₂ : Bool),
      gcj_wgs_bored p b₁ = gcj_wgs_bored p b₂ ∧
        bd_gcj_bored p b₁ = bd_gcj_bored p b₂ ∧
        bd_wgs_bored p b₁ = bd_wgs_bored p b₂ :=
  fun _ _ _ => ⟨rfl, rfl, rfl⟩

end PRCoords

end
